import Mathlib

/-!
Verification development for the gamma-sdk account-data and token-resolution
layer: the multi-source token registry (`TokenModule.load`, `getTokenInfo`),
the TTL-based cache accessors of `GfxCpmmClient`, the `endlessRetry` wrapper,
and the fixed binary layouts, shallowly embedded from the TypeScript source.
-/

/-- One token's metadata, after `ApiV3Token`/`TokenInfo` from
`src/api/type.ts` and `src/gfx/token/type.ts`: address-keyed record with
provenance `type` tag and `priority` integer.  `programId` is `Option`al
because the external (jup) list may omit it (`token.programId ?? ...` in
`token.ts`). -/
structure TokenInfo where
  chainId : Nat
  address : String
  programId : Option String
  logoURI : String
  symbol : String
  name : String
  decimals : Nat
  tags : List String
  extensions : List (String × String)
  type : String
  priority : Nat
  deriving Repr, DecidableEq

/-- `TOKEN_PROGRAM_ID.toBase58()`. -/
def TOKEN_PROGRAM_ID : String := "TokenkegQfeZyiNwAJbNbGKPFXCWuBvf9Ss623VQ5DA"

/-- `TOKEN_2022_PROGRAM_ID.toBase58()`. -/
def TOKEN_2022_PROGRAM_ID : String := "TokenzQdBNbLqP5VEhdkAS6EPFLC1PHnBqCXEpPxuEb"

/-- Modelled from the spec: the single built-in native-asset entry
(`SOL_INFO` from `src/gfx/token/constant.ts`, a file not present in the
sources).  Only its `address` field is consulted by the code under
verification; the remaining fields are plausible constants. -/
def SOL_INFO : TokenInfo :=
  { chainId := 101
    address := "So11111111111111111111111111111111111111112"
    programId := some TOKEN_PROGRAM_ID
    logoURI := ""
    symbol := "SOL"
    name := "Solana"
    decimals := 9
    tags := []
    extensions := []
    type := "gfx"
    priority := 2 }

/-- A JavaScript `Map<string, TokenInfo>` as an association list in
insertion order, keys unique by construction. -/
abbrev TokenMap := List (String × TokenInfo)

/-- `Map.prototype.set`: replace the value at an existing key in place
(keeping its insertion position), otherwise append the new binding. -/
def mapSet : TokenMap → String → TokenInfo → TokenMap
  | [], k, v => [(k, v)]
  | (k', v') :: rest, k, v =>
      if k' = k then (k, v) :: rest else (k', v') :: mapSet rest k v

/-- `Map.prototype.get`. -/
def mapGet : TokenMap → String → Option TokenInfo
  | [], _ => none
  | (k', v') :: rest, k => if k' = k then some v' else mapGet rest k

/-- A JavaScript `Set<string>` as a list in insertion order. -/
def setAdd (s : List String) (a : String) : List String :=
  if a ∈ s then s else s ++ [a]

/-- The transformation `TokenModule.load` applies to each external (jup)
entry: tag `type := "jupiter"`, `priority := 1`, and default a missing
`programId` from the `token-2022` tag (`??`, so a present `programId` is
kept). -/
def jupTransform (t : TokenInfo) : TokenInfo :=
  { t with
    type := "jupiter"
    priority := 1
    programId := some (t.programId.getD
      (if t.tags.contains "token-2022" then TOKEN_2022_PROGRAM_ID else TOKEN_PROGRAM_ID)) }

/-- JavaScript truthiness of an optional string (`undefined` and `""` are
falsy). -/
def isTruthy : Option String → Bool
  | none => false
  | some s => s ≠ ""

/-- The transformation `TokenModule.load` applies to each curated (extra)
entry.  The source expression is
`token.programId || token.tags.includes("token-2022") ? TOKEN_2022_PROGRAM_ID : TOKEN_PROGRAM_ID`,
which JavaScript parses as `(a || b) ? x : y`: a truthy original
`programId` therefore selects `TOKEN_2022_PROGRAM_ID` instead of being
kept. -/
def extraTransform (t : TokenInfo) : TokenInfo :=
  { t with
    type := "extra"
    priority := 1
    programId := some
      (if isTruthy t.programId || t.tags.contains "token-2022"
       then TOKEN_2022_PROGRAM_ID else TOKEN_PROGRAM_ID) }

/-- The observable state of `TokenModule`: `_tokenList`, `_tokenMap`, and
the three provenance sets of `_mintGroup`. -/
structure TokenModuleState where
  tokenList : List TokenInfo
  tokenMap : TokenMap
  official : List String
  jup : List String
  extra : List String
  deriving Repr, DecidableEq

/-- `TokenModule.load` (token.ts lines 25-63): reset all data, insert
`SOL_INFO` under `official`, then every jup entry, then every curated
(extra) entry, each `Map.set` overwriting any earlier binding for the same
address; finally materialise `_tokenList` from the map.  The fetched jup
list and the module's `_extraTokenList` are the two inputs. -/
def TokenModule.load (jup extraTokenList : List TokenInfo) : TokenModuleState :=
  let m0 := mapSet [] SOL_INFO.address SOL_INFO
  let m1 := jup.foldl (fun m t => mapSet m t.address (jupTransform t)) m0
  let m2 := extraTokenList.foldl (fun m t => mapSet m t.address (extraTransform t)) m1
  { tokenList := m2.map Prod.snd
    tokenMap := m2
    official := setAdd [] SOL_INFO.address
    jup := jup.foldl (fun s t => setAdd s t.address) []
    extra := extraTokenList.foldl (fun s t => setAdd s t.address) [] }

/-- The last entry of `l` whose address is `a` (later `forEach` iterations
overwrite earlier ones at the same key). -/
def lastWith : List TokenInfo → String → Option TokenInfo
  | [], _ => none
  | t :: ts, a =>
      match lastWith ts a with
      | some u => some u
      | none => if t.address = a then some t else none

/-- The spec's description of the merged table (§4.4): for each address the
record from the last source, in the order official, external, curated, that
contains the address, carrying that source's tagging. -/
def mergedSpec (jup extraTokenList : List TokenInfo) (a : String) : Option TokenInfo :=
  match lastWith extraTokenList a with
  | some t => some (extraTransform t)
  | none =>
      match lastWith jup a with
      | some t => some (jupTransform t)
      | none => if SOL_INFO.address = a then some SOL_INFO else none

theorem mapGet_mapSet (m : TokenMap) (k : String) (v : TokenInfo) (a : String) :
    mapGet (mapSet m k v) a = if k = a then some v else mapGet m a := by
  induction m with
  | nil =>
      simp only [mapSet, mapGet]
  | cons p rest ih =>
      obtain ⟨k', v'⟩ := p
      by_cases hk : k' = k
      · subst hk
        by_cases ha : k' = a <;> simp [mapSet, mapGet, ha]
      · simp only [mapSet, if_neg hk, mapGet, ih]
        by_cases ha : k' = a
        · subst ha
          have : ¬ k = k' := fun h => hk h.symm
          simp [this]
        · simp [ha]

theorem mapGet_foldl_set (f : TokenInfo → TokenInfo) (l : List TokenInfo)
    (m : TokenMap) (a : String) :
    mapGet (l.foldl (fun m t => mapSet m t.address (f t)) m) a =
      (match lastWith l a with
       | some u => some (f u)
       | none => mapGet m a) := by
  induction l generalizing m with
  | nil => simp [lastWith]
  | cons t ts ih =>
      simp only [List.foldl_cons, ih, lastWith]
      cases h : lastWith ts a with
      | some u => simp
      | none =>
          simp only [mapGet_mapSet]
          by_cases ht : t.address = a
          · simp [ht]
          · simp [ht]

theorem mem_setAdd (s : List String) (a b : String) :
    b ∈ setAdd s a ↔ b ∈ s ∨ b = a := by
  by_cases h : a ∈ s
  · unfold setAdd
    rw [if_pos h]
    constructor
    · exact fun hb => Or.inl hb
    · rintro (hb | rfl)
      · exact hb
      · exact h
  · unfold setAdd
    rw [if_neg h]
    simp [List.mem_append]

theorem mem_foldl_setAdd (l : List TokenInfo) (s : List String) (a : String) :
    a ∈ l.foldl (fun s t => setAdd s t.address) s ↔
      a ∈ s ∨ ∃ t ∈ l, t.address = a := by
  induction l generalizing s with
  | nil => simp
  | cons t ts ih =>
      simp only [List.foldl_cons, ih, mem_setAdd]
      constructor
      · rintro ((hs | rfl) | ⟨u, hu, rfl⟩)
        · exact Or.inl hs
        · exact Or.inr ⟨t, List.mem_cons_self _ _, rfl⟩
        · exact Or.inr ⟨u, List.mem_cons_of_mem _ hu, rfl⟩
      · rintro (hs | ⟨u, hu, rfl⟩)
        · exact Or.inl (Or.inl hs)
        · rcases List.mem_cons.mp hu with rfl | hu
          · exact Or.inl (Or.inr rfl)
          · exact Or.inr ⟨u, hu, rfl⟩

/-- C1: after `load()` the merged table is keyed by address with
last-write-wins precedence official, then external (jup), then curated
(extra): for every address the table holds the (tagged) record from the
last source containing it, and each provenance set contains exactly the
addresses originating from its source. -/
theorem load_merge_last_write_wins (jup extraTokenList : List TokenInfo) (a : String) :
    mapGet (TokenModule.load jup extraTokenList).tokenMap a =
        mergedSpec jup extraTokenList a ∧
      (a ∈ (TokenModule.load jup extraTokenList).official ↔ a = SOL_INFO.address) ∧
      (a ∈ (TokenModule.load jup extraTokenList).jup ↔ ∃ t ∈ jup, t.address = a) ∧
      (a ∈ (TokenModule.load jup extraTokenList).extra ↔
        ∃ t ∈ extraTokenList, t.address = a) := by
  refine ⟨?_, ?_, ?_, ?_⟩
  · show mapGet (extraTokenList.foldl _ (jup.foldl _ (mapSet [] SOL_INFO.address SOL_INFO))) a = _
    rw [mapGet_foldl_set]
    unfold mergedSpec
    cases lastWith extraTokenList a with
    | some u => rfl
    | none =>
        simp only [mapGet_foldl_set]
        cases lastWith jup a with
        | some u => rfl
        | none => simp [mapGet_mapSet, mapGet]
  · show a ∈ setAdd [] SOL_INFO.address ↔ _
    rw [mem_setAdd]
    simp
  · exact (mem_foldl_setAdd jup [] a).trans (by simp)
  · exact (mem_foldl_setAdd extraTokenList [] a).trans (by simp)

/-- The data `TokenModule.getTokenInfo` reads from a ledger account: the
owning program (`onlineInfo.owner.toBase58()`) and the decimal count from
`MintLayout.decode(onlineInfo.data)`. -/
structure AccountInfo where
  owner : String
  decimals : Nat
  deriving Repr, DecidableEq

/-- The failures `getTokenInfo` can raise: the empty-input guard, a
rejected metadata-API request, a rejected ledger request, and the final
`mint address not found` (UnknownMint) error. -/
inductive GtiError where
  | emptyInput
  | apiError
  | rpcError
  | unknownMint (mint : String)
  deriving Repr, DecidableEq

/-- `mintStr.toLocaleUpperCase()` as used by the SOL-alias check: upper-case
every character (the addresses involved are ASCII). -/
def toUpperStr (s : String) : String := String.mk (s.data.map Char.toUpper)

/-- `s.substring(0, n)`: the first `n` characters of `s` (all of `s` when it
is shorter). -/
def firstChars (n : Nat) (s : String) : String := String.mk (s.data.take n)

/-- The record synthesised by the ledger tier of `getTokenInfo`
(token.ts lines 94-107). -/
def syntheticMint (mint : String) (acct : AccountInfo) : TokenInfo :=
  { chainId := 101
    address := mint
    programId := some acct.owner
    logoURI := ""
    symbol := firstChars 6 mint
    name := firstChars 6 mint
    decimals := acct.decimals
    tags := []
    extensions := []
    priority := 0
    type := "unknown" }

/-- `TokenModule.getTokenInfo` (token.ts lines 77-111).  The collaborator
responses are passed in: `apiResult` is the outcome of
`scope.api.getTokenInfo([mintStr])` (a rejection or a list) and
`ledgerResult` the outcome of `connection.getAccountInfo` (a rejection, a
missing account, or the account).  Neither awaited call is wrapped in
`try`/`catch` in the source, so a rejection propagates out of the
corresponding branch. -/
def getTokenInfo (st : TokenModuleState) (mint : String)
    (apiResult : Except Unit (List TokenInfo))
    (ledgerResult : Except Unit (Option AccountInfo)) :
    Except GtiError (TokenInfo × TokenModuleState) :=
  if mint = "" then Except.error GtiError.emptyInput
  else
    match mapGet st.tokenMap mint with
    | some info => Except.ok (info, st)
    | none =>
      if toUpperStr mint = "SOL" then Except.ok (SOL_INFO, st)
      else
        match apiResult with
        | Except.error _ => Except.error GtiError.apiError
        | Except.ok lst =>
          match lst with
          | apiTokenInfo :: _ =>
              Except.ok (apiTokenInfo,
                { st with
                  extra := setAdd st.extra mint
                  tokenMap := mapSet st.tokenMap mint { apiTokenInfo with priority := 2 } })
          | [] =>
            match ledgerResult with
            | Except.error _ => Except.error GtiError.rpcError
            | Except.ok none => Except.error (GtiError.unknownMint mint)
            | Except.ok (some acct) =>
                Except.ok (syntheticMint mint acct,
                  { st with
                    extra := setAdd st.extra mint
                    tokenMap := mapSet st.tokenMap mint (syntheticMint mint acct) })

/-- The state of a freshly constructed `TokenModule`, before any `load`. -/
def emptyTokenState : TokenModuleState :=
  { tokenList := [], tokenMap := [], official := [], jup := [], extra := [] }

/-- C2 counterexample: with the metadata API rejecting and the ledger
holding the account, `getTokenInfo` surfaces the API error — the fallback
chain does not swallow an API failure and never reaches the ledger tier,
contradicting the claim that only `UnknownMint` can escape. -/
theorem getTokenInfo_api_error_escapes :
    getTokenInfo emptyTokenState "Dum" (Except.error ())
        (Except.ok (some { owner := "Owner11", decimals := 6 }))
        = Except.error GtiError.apiError ∧
      GtiError.apiError ≠ GtiError.unknownMint "Dum" ∧
      getTokenInfo emptyTokenState "Dum" (Except.ok [])
        (Except.ok (some { owner := "Owner11", decimals := 6 }))
        = Except.ok (syntheticMint "Dum" { owner := "Owner11", decimals := 6 },
            { emptyTokenState with
              extra := setAdd [] "Dum"
              tokenMap := mapSet [] "Dum"
                (syntheticMint "Dum" { owner := "Owner11", decimals := 6 }) }) := by
  refine ⟨rfl, by decide, rfl⟩

/-- C2 (amended): for an address that misses the table and the SOL alias,
the chain falls to the next tier only on an empty result — `UnknownMint`
is surfaced exactly when the API returned no record and the ledger account
does not exist, while an API rejection or ledger rejection propagates to
the caller as its own error. -/
theorem getTokenInfo_fallback_characterization
    (st : TokenModuleState) (mint : String)
    (apiResult : Except Unit (List TokenInfo))
    (ledgerResult : Except Unit (Option AccountInfo))
    (hne : mint ≠ "") (habs : mapGet st.tokenMap mint = none)
    (hsol : toUpperStr mint ≠ "SOL") :
    (getTokenInfo st mint apiResult ledgerResult
        = Except.error (GtiError.unknownMint mint)
       ↔ apiResult = Except.ok [] ∧ ledgerResult = Except.ok none)
    ∧ (∀ e, apiResult = Except.error e →
        getTokenInfo st mint apiResult ledgerResult = Except.error GtiError.apiError)
    ∧ (∀ e, apiResult = Except.ok [] → ledgerResult = Except.error e →
        getTokenInfo st mint apiResult ledgerResult = Except.error GtiError.rpcError)
    ∧ (∀ t rest, apiResult = Except.ok (t :: rest) →
        getTokenInfo st mint apiResult ledgerResult = Except.ok (t,
          { st with
            extra := setAdd st.extra mint
            tokenMap := mapSet st.tokenMap mint { t with priority := 2 } }))
    ∧ (∀ acct, apiResult = Except.ok [] → ledgerResult = Except.ok (some acct) →
        getTokenInfo st mint apiResult ledgerResult = Except.ok (syntheticMint mint acct,
          { st with
            extra := setAdd st.extra mint
            tokenMap := mapSet st.tokenMap mint (syntheticMint mint acct) })) := by
  simp only [getTokenInfo, if_neg hne, habs, if_neg hsol]
  rcases apiResult with e | lst
  · refine ⟨by simp, fun e h => rfl, ?_, ?_, ?_⟩ <;> intros <;> simp_all
  · rcases lst with _ | ⟨t, rest⟩
    · rcases ledgerResult with e | macct
      · refine ⟨by simp, ?_, fun e h1 h2 => rfl, ?_, ?_⟩ <;> intros <;> simp_all
      · rcases macct with _ | acct
        · refine ⟨by simp, ?_, ?_, ?_, ?_⟩ <;> intros <;> simp_all
        · refine ⟨by simp, ?_, ?_, ?_, ?_⟩ <;> intros <;> simp_all
    · refine ⟨by simp, ?_, ?_, ?_, ?_⟩ <;> intros <;> simp_all

/-- Witness: the characterization applied at a concrete address with an
empty API batch and a missing ledger account yields `UnknownMint`. -/
theorem getTokenInfo_fallback_characterization_witness :
    getTokenInfo emptyTokenState "Dummy" (Except.ok []) (Except.ok none)
      = Except.error (GtiError.unknownMint "Dummy") :=
  ((getTokenInfo_fallback_characterization emptyTokenState "Dummy"
      (Except.ok []) (Except.ok none) (by decide) rfl (by decide)).1).mpr ⟨rfl, rfl⟩

/-- C6: when the ledger tier is reached (address absent from table, not the
SOL alias, API batch empty) and the account exists, `getTokenInfo` returns
and inserts under curated (`extra`) provenance a record with symbol and
name the first 6 characters of the address, empty tags, priority 0, type
"unknown", the account's owner as `programId`, and the decoded decimal
count; a missing account yields `UnknownMint`. -/
theorem getTokenInfo_ledger_tier_synthesis
    (st : TokenModuleState) (mint : String) (acct : AccountInfo)
    (hne : mint ≠ "") (habs : mapGet st.tokenMap mint = none)
    (hsol : toUpperStr mint ≠ "SOL") :
    getTokenInfo st mint (Except.ok []) (Except.ok (some acct)) =
        Except.ok (syntheticMint mint acct,
          { st with
            extra := setAdd st.extra mint
            tokenMap := mapSet st.tokenMap mint (syntheticMint mint acct) }) ∧
      (syntheticMint mint acct).symbol = firstChars 6 mint ∧
      (syntheticMint mint acct).name = firstChars 6 mint ∧
      (syntheticMint mint acct).tags = [] ∧
      (syntheticMint mint acct).priority = 0 ∧
      (syntheticMint mint acct).type = "unknown" ∧
      (syntheticMint mint acct).programId = some acct.owner ∧
      (syntheticMint mint acct).decimals = acct.decimals ∧
      mapGet (mapSet st.tokenMap mint (syntheticMint mint acct)) mint =
        some (syntheticMint mint acct) ∧
      mint ∈ setAdd st.extra mint ∧
      getTokenInfo st mint (Except.ok []) (Except.ok none) =
        Except.error (GtiError.unknownMint mint) := by
  refine ⟨?_, rfl, rfl, rfl, rfl, rfl, rfl, rfl, ?_, ?_, ?_⟩
  · simp only [getTokenInfo, if_neg hne, habs, if_neg hsol]
  · rw [mapGet_mapSet]
    simp
  · rw [mem_setAdd]
    simp
  · simp only [getTokenInfo, if_neg hne, habs, if_neg hsol]

/-- Witness: the ledger tier applied at a concrete unknown address. -/
theorem getTokenInfo_ledger_tier_synthesis_witness :
    getTokenInfo emptyTokenState "MintAddr11" (Except.ok [])
        (Except.ok (some { owner := "Owner22", decimals := 9 })) =
      Except.ok (syntheticMint "MintAddr11" { owner := "Owner22", decimals := 9 },
        { emptyTokenState with
          extra := setAdd [] "MintAddr11"
          tokenMap := mapSet [] "MintAddr11"
            (syntheticMint "MintAddr11" { owner := "Owner22", decimals := 9 }) }) ∧
      (syntheticMint "MintAddr11" { owner := "Owner22", decimals := 9 }).symbol
        = "MintAd" :=
  ⟨(getTokenInfo_ledger_tier_synthesis emptyTokenState "MintAddr11"
      { owner := "Owner22", decimals := 9 } (by decide) rfl (by decide)).1,
   by decide⟩

/-- C10: a successful `getTokenInfo` of an address not already in the table
mutates only `_tokenMap` (and only at that address) and the curated
`extra` provenance set; `_tokenList` and the `official` and `jup` sets are
unchanged, so the `tokenList` view keeps reflecting the last `load()`. -/
theorem getTokenInfo_frame
    (st : TokenModuleState) (mint : String)
    (apiResult : Except Unit (List TokenInfo))
    (ledgerResult : Except Unit (Option AccountInfo))
    (t : TokenInfo) (st2 : TokenModuleState)
    (habs : mapGet st.tokenMap mint = none)
    (h : getTokenInfo st mint apiResult ledgerResult = Except.ok (t, st2)) :
    st2.tokenList = st.tokenList ∧ st2.official = st.official ∧
      st2.jup = st.jup ∧
      ∀ a, a ≠ mint → mapGet st2.tokenMap a = mapGet st.tokenMap a := by
  by_cases hne : mint = ""
  · rw [hne] at h
    simp [getTokenInfo] at h
  · simp only [getTokenInfo, if_neg hne, habs] at h
    by_cases hsol : toUpperStr mint = "SOL"
    · rw [if_pos hsol] at h
      obtain ⟨-, rfl⟩ := Prod.mk.injEq .. ▸ Except.ok.inj h
      exact ⟨rfl, rfl, rfl, fun a _ => rfl⟩
    · rw [if_neg hsol] at h
      rcases apiResult with e | lst
      · exact absurd h (by simp)
      · rcases lst with _ | ⟨u, rest⟩
        · rcases ledgerResult with e | macct
          · exact absurd h (by simp)
          · rcases macct with _ | acct
            · exact absurd h (by simp)
            · obtain ⟨-, rfl⟩ := Prod.mk.injEq .. ▸ Except.ok.inj h
              refine ⟨rfl, rfl, rfl, fun a ha => ?_⟩
              show mapGet (mapSet st.tokenMap mint (syntheticMint mint acct)) a = _
              rw [mapGet_mapSet, if_neg (fun hc => ha hc.symm)]
        · obtain ⟨-, rfl⟩ := Prod.mk.injEq .. ▸ Except.ok.inj h
          refine ⟨rfl, rfl, rfl, fun a ha => ?_⟩
          show mapGet (mapSet st.tokenMap mint { u with priority := 2 }) a = _
          rw [mapGet_mapSet, if_neg (fun hc => ha hc.symm)]

/-- Witness: the frame property applied at a concrete ledger-tier
resolution from the empty state. -/
theorem getTokenInfo_frame_witness :
    (TokenModuleState.tokenList
        { emptyTokenState with
          extra := setAdd [] "MintB"
          tokenMap := mapSet [] "MintB" (syntheticMint "MintB" { owner := "O", decimals := 0 }) }
      = emptyTokenState.tokenList) ∧
    mapGet (mapSet [] "MintB" (syntheticMint "MintB" { owner := "O", decimals := 0 })) "Other"
      = mapGet emptyTokenState.tokenMap "Other" :=
  have h := getTokenInfo_frame emptyTokenState "MintB" (Except.ok [])
    (Except.ok (some { owner := "O", decimals := 0 }))
    (syntheticMint "MintB" { owner := "O", decimals := 0 })
    { emptyTokenState with
      extra := setAdd [] "MintB"
      tokenMap := mapSet [] "MintB" (syntheticMint "MintB" { owner := "O", decimals := 0 }) }
    rfl rfl
  ⟨h.1, h.2.2.2 "Other" (by decide)⟩

/-- A concrete curated-list entry carrying an explicit original
`programId` (the classic token program) and no `token-2022` tag. -/
def extraSample : TokenInfo :=
  { chainId := 101
    address := "ExtraMint111"
    programId := some TOKEN_PROGRAM_ID
    logoURI := ""
    symbol := "EXT"
    name := "Extra"
    decimals := 6
    tags := []
    extensions := []
    type := ""
    priority := 0 }

/-- C7: the curated branch of `load` does not preserve the entry's original
`programId`.  Because `token.programId || token.tags.includes("token-2022")
? TOKEN_2022_PROGRAM_ID : TOKEN_PROGRAM_ID` parses as `(a || b) ? x : y`,
an entry whose original `programId` is the classic token program and whose
tags do not include `token-2022` is stored with
`TOKEN_2022_PROGRAM_ID` as its `programId`. -/
theorem load_extra_programId_overwritten :
    extraSample.programId = some TOKEN_PROGRAM_ID ∧
      extraSample.tags = [] ∧
      mapGet (TokenModule.load [] [extraSample]).tokenMap "ExtraMint111" =
        some { extraSample with
               type := "extra"
               priority := 1
               programId := some TOKEN_2022_PROGRAM_ID } ∧
      TOKEN_2022_PROGRAM_ID ≠ TOKEN_PROGRAM_ID := by
  refine ⟨rfl, rfl, rfl, by decide⟩

/-- A cached external token list (`DataBase<ApiV3Token[]>` in client.ts):
the fetch timestamp in milliseconds and the data. -/
structure CachedList where
  fetched : Int
  data : List TokenInfo
  deriving Repr, DecidableEq

/-- The default `_apiCacheTime`: 5 minutes. -/
def defaultApiCacheTime : Int := 5 * 60 * 1000

/-- The constructor's `this._apiCacheTime = apiCacheTime || 5 * 60 * 1000`
(client.ts line 102): JavaScript `||` treats both `undefined` and `0` as
falsy, so a configured `0` becomes the 5-minute default while `-1` is kept. -/
def constructorApiCacheTime (apiCacheTime : Option Int) : Int :=
  match apiCacheTime with
  | none => defaultApiCacheTime
  | some t => if t = 0 then defaultApiCacheTime else t

/-- `GfxCpmmClient.isCacheInvalidate` (client.ts lines 186-188):
`new Date().getTime() - time > this._apiCacheTime`. -/
def isCacheInvalidate (apiCacheTime now time : Int) : Bool :=
  now - time > apiCacheTime

/-- `GfxCpmmClient.fetchJupTokenList` (client.ts lines 190-205) at one call
instant `now`: return the cached data when a cache entry exists, is not
invalidated and no force-update is requested; otherwise perform the fetch,
storing the result with the current timestamp on success, and on a
rejection log it and return `[]`, leaving the cache untouched.  The result
triple is (value delivered to the caller, cache afterwards, whether the
fetch function was invoked); the caller-facing value is an `Except` so that
error propagation is expressible (the source never propagates). -/
def fetchJupTokenList (cache : Option CachedList) (apiCacheTime now : Int)
    (forceUpdate : Bool) (fetchResult : Except Unit (List TokenInfo)) :
    Except Unit (List TokenInfo) × Option CachedList × Bool :=
  let doFetch : Except Unit (List TokenInfo) × Option CachedList × Bool :=
    match fetchResult with
    | Except.ok jupList => (Except.ok jupList, some { fetched := now, data := jupList }, true)
    | Except.error _ => (Except.ok [], cache, true)
  match cache with
  | some prevFetched =>
      if !(isCacheInvalidate apiCacheTime now prevFetched.fetched) && !forceUpdate
      then (Except.ok prevFetched.data, some prevFetched, false)
      else doFetch
  | none => doFetch

/-- The epoch data returned by `connection.getEpochInfo()`. -/
structure EpochInfo where
  epoch : Nat
  slotIndex : Nat
  slotsInEpoch : Nat
  absoluteSlot : Nat
  deriving Repr, DecidableEq

/-- The `_epochInfo` cache slot of `GfxCpmmClient`. -/
structure CachedEpoch where
  fetched : Int
  value : EpochInfo
  deriving Repr, DecidableEq

/-- `GfxCpmmClient.fetchEpochInfo` (client.ts lines 211-218) at one call
instant `now`: reuse the cached value while `now - fetched <= 30s`,
otherwise query the ledger (`rpc` is its answer) and store it with the
current timestamp.  Result triple as in `fetchJupTokenList`. -/
def fetchEpochInfo (cache : Option CachedEpoch) (now : Int) (rpc : EpochInfo) :
    EpochInfo × Option CachedEpoch × Bool :=
  match cache with
  | some prev =>
      if now - prev.fetched ≤ 1000 * 30
      then (prev.value, some prev, false)
      else (rpc, some { fetched := now, value := rpc }, true)
  | none => (rpc, some { fetched := now, value := rpc }, true)

/-- C3: the sentinel TTL values do the opposite of what the code's own
parameter documentation (client.ts lines 25-26) and the claim state.  With
a configured `-1` the guard `now - fetched > -1` holds even at age 0, so
every call refetches; with a configured `0`, `0 || 300000` yields the
5-minute default instead of always-refetch. -/
theorem cache_ttl_sentinel_bug :
    constructorApiCacheTime (some (-1)) = -1 ∧
      isCacheInvalidate (-1) 100 100 = true ∧
      fetchJupTokenList (some { fetched := 100, data := [extraSample] }) (-1) 100 false
          (Except.ok [])
        = (Except.ok [], some { fetched := 100, data := [] }, true) ∧
      constructorApiCacheTime (some 0) = defaultApiCacheTime := by
  refine ⟨rfl, rfl, rfl, rfl⟩

/-- C4 counterexample: a failing refresh leaves the cache untouched but
hands the caller an empty list — neither the stale value nor the error.
With no cached value the error still does not propagate: the caller again
receives `Except.ok []`. -/
theorem fetchJupTokenList_failure_returns_empty :
    fetchJupTokenList (some { fetched := 0, data := [extraSample] }) 300000 400000 false
        (Except.error ())
        = (Except.ok [], some { fetched := 0, data := [extraSample] }, true) ∧
      (Except.ok ([] : List TokenInfo) : Except Unit (List TokenInfo))
        ≠ Except.ok [extraSample] ∧
      fetchJupTokenList none 300000 0 false (Except.error ())
        = (Except.ok [], none, true) ∧
      Except.ok ([] : List TokenInfo) ≠ (Except.error () : Except Unit (List TokenInfo)) := by
  refine ⟨rfl, by simp [extraSample], rfl, by simp⟩

/-- C4 (amended): whenever the fetch is actually attempted (no cache, stale
cache, or force-update) and fails, the cache is preserved unchanged and the
caller receives an empty list; the error is swallowed, never propagated,
and the prior cached value is not returned. -/
theorem fetchJupTokenList_failure_behavior
    (cache : Option CachedList) (apiCacheTime now : Int) (forceUpdate : Bool)
    (hmiss : (match cache with
              | some prev => isCacheInvalidate apiCacheTime now prev.fetched || forceUpdate
              | none => true) = true) :
    fetchJupTokenList cache apiCacheTime now forceUpdate (Except.error ())
      = (Except.ok [], cache, true) := by
  rcases cache with _ | prev
  · rfl
  · have hcond : (!(isCacheInvalidate apiCacheTime now prev.fetched) && !forceUpdate) = false := by
      cases hI : isCacheInvalidate apiCacheTime now prev.fetched <;>
        cases hF : forceUpdate <;> simp_all
    simp [fetchJupTokenList, hcond]

/-- Witness: a failing fetch with no cached value returns the empty list. -/
theorem fetchJupTokenList_failure_behavior_witness :
    fetchJupTokenList none 300000 0 false (Except.error ()) = (Except.ok [], none, true) :=
  fetchJupTokenList_failure_behavior none 300000 0 false rfl

/-- C8: for both cache instances, a call while a cached value exists and
`now - fetchedAt <= ttl` (the token list's configured TTL, the epoch
info's fixed 30 seconds) returns the cached value with zero fetches,
absent force-refresh; once the TTL has elapsed the call performs exactly
one fetch and stores the result under the current timestamp. -/
theorem ttl_caches_fresh_and_expired :
    (∀ (prev : CachedList) (apiCacheTime now : Int)
        (fetchResult : Except Unit (List TokenInfo)),
        now - prev.fetched ≤ apiCacheTime →
        fetchJupTokenList (some prev) apiCacheTime now false fetchResult
          = (Except.ok prev.data, some prev, false))
    ∧ (∀ (prev : CachedList) (apiCacheTime now : Int) (jupList : List TokenInfo),
        apiCacheTime < now - prev.fetched →
        fetchJupTokenList (some prev) apiCacheTime now false (Except.ok jupList)
          = (Except.ok jupList, some { fetched := now, data := jupList }, true))
    ∧ (∀ (prev : CachedEpoch) (now : Int) (rpc : EpochInfo),
        now - prev.fetched ≤ 1000 * 30 →
        fetchEpochInfo (some prev) now rpc = (prev.value, some prev, false))
    ∧ (∀ (prev : CachedEpoch) (now : Int) (rpc : EpochInfo),
        1000 * 30 < now - prev.fetched →
        fetchEpochInfo (some prev) now rpc
          = (rpc, some { fetched := now, value := rpc }, true)) := by
  refine ⟨?_, ?_, ?_, ?_⟩
  · intro prev apiCacheTime now fetchResult h
    simp [fetchJupTokenList, isCacheInvalidate, not_lt.mpr h]
  · intro prev apiCacheTime now jupList h
    simp [fetchJupTokenList, isCacheInvalidate, h]
  · intro prev now rpc h
    simp only [fetchEpochInfo, if_pos h]
  · intro prev now rpc h
    simp only [fetchEpochInfo, if_neg (not_le.mpr h)]

/-- Witness: both caches at concrete fresh and expired instants. -/
theorem ttl_caches_fresh_and_expired_witness :
    fetchJupTokenList (some { fetched := 0, data := [extraSample] }) 300000 10 false
        (Except.ok []) = (Except.ok [extraSample], some { fetched := 0, data := [extraSample] }, false) ∧
      fetchJupTokenList (some { fetched := 0, data := [extraSample] }) 300000 300001 false
        (Except.ok []) = (Except.ok [], some { fetched := 300001, data := [] }, true) ∧
      fetchEpochInfo (some { fetched := 0, value := { epoch := 1, slotIndex := 2, slotsInEpoch := 3, absoluteSlot := 4 } }) 30000
          { epoch := 9, slotIndex := 9, slotsInEpoch := 9, absoluteSlot := 9 }
        = ({ epoch := 1, slotIndex := 2, slotsInEpoch := 3, absoluteSlot := 4 },
           some { fetched := 0, value := { epoch := 1, slotIndex := 2, slotsInEpoch := 3, absoluteSlot := 4 } }, false) ∧
      fetchEpochInfo (some { fetched := 0, value := { epoch := 1, slotIndex := 2, slotsInEpoch := 3, absoluteSlot := 4 } }) 30001
          { epoch := 9, slotIndex := 9, slotsInEpoch := 9, absoluteSlot := 9 }
        = ({ epoch := 9, slotIndex := 9, slotsInEpoch := 9, absoluteSlot := 9 },
           some { fetched := 30001, value := { epoch := 9, slotIndex := 9, slotsInEpoch := 9, absoluteSlot := 9 } }, true) :=
  ⟨ttl_caches_fresh_and_expired.1 _ 300000 10 _ (by decide),
   ttl_caches_fresh_and_expired.2.1 _ 300000 300001 _ (by decide),
   ttl_caches_fresh_and_expired.2.2.1 _ 30000 _ (by decide),
   ttl_caches_fresh_and_expired.2.2.2 _ 30001 _ (by decide)⟩

/-- One invocation outcome of the `call` passed to `endlessRetry`: the
promise rejects (`thrown`), or it resolves with a value, where
`resolved none` models resolving with a nullish (`undefined`/`null`)
value — which the loop's `result == undefined` test does not accept as a
result. -/
inductive CallOutcome (T : Type) where
  | thrown
  | resolved (v : Option T)
  deriving Repr, DecidableEq

/-- The JavaScript truthiness notion the loop uses: any resolution counts
as a successful invocation of `call` (the promise did not reject). -/
def isSuccess {T : Type} : CallOutcome T → Bool
  | CallOutcome.thrown => false
  | CallOutcome.resolved _ => true

/-- An invocation that resolved with a defined (non-nullish) value — the
only case in which `while (result == undefined)` exits. -/
def definedSuccess {T : Type} : CallOutcome T → Bool
  | CallOutcome.resolved (some _) => true
  | _ => false

/-- The number of rejections in a trace (each one is followed by a
`sleep(interval)` in the `catch` block). -/
def countThrown {T : Type} : List (CallOutcome T) → Nat
  | [] => 0
  | CallOutcome.thrown :: rest => countThrown rest + 1
  | _ :: rest => countThrown rest

/-- `endlessRetry` (api.ts lines 23-37) over the trace of successive
invocation outcomes of `call`.  The loop `while (result == undefined)`
awaits `call()`; a rejection is caught, logged, and followed by
`sleep(interval)`; a resolution with a nullish value re-enters the loop
immediately (no `catch` ran, so no sleep); a resolution with a defined
value exits the loop and is returned.  The result is the returned value
together with the number of invocations made and the total milliseconds
slept; `none` models a trace exhausted with the loop still running. -/
def endlessRetry {T : Type} (outcomes : List (CallOutcome T)) (interval : Int) :
    Option (T × Nat × Int) :=
  match outcomes with
  | [] => none
  | CallOutcome.thrown :: rest =>
      (endlessRetry rest interval).map (fun r => (r.1, r.2.1 + 1, r.2.2 + interval))
  | CallOutcome.resolved none :: rest =>
      (endlessRetry rest interval).map (fun r => (r.1, r.2.1 + 1, r.2.2))
  | CallOutcome.resolved (some v) :: _ => some (v, 1, 0)

/-- `endlessRetry` with its default `interval = 1000`. -/
def endlessRetryDefault {T : Type} (outcomes : List (CallOutcome T)) :
    Option (T × Nat × Int) :=
  endlessRetry outcomes 1000

/-- C5 counterexample: the first invocation succeeds (the promise
resolves), yet because its value is nullish the loop invokes `call` a
second time — `endlessRetry` does not return the value of the first
successful invocation immediately and without further invocations. -/
theorem endlessRetry_nullish_success_retries :
    isSuccess (CallOutcome.resolved (none : Option Nat)) = true ∧
      endlessRetry [CallOutcome.resolved (none : Option Nat),
                    CallOutcome.resolved (some 5)] 1000 = some (5, 2, 0) ∧
      (2 : Nat) ≠ 1 :=
  ⟨rfl, rfl, by decide⟩

/-- C5 (amended): `endlessRetry` returns the value of the first invocation
that resolves with a defined (non-nullish) value, after exactly that many
invocations, sleeping `interval` milliseconds (default 1000) after each
rejection and not sleeping after a nullish resolution; it never surfaces
an error — on a trace with no defined success it is simply still
retrying. -/
theorem endlessRetry_first_defined_success {T : Type}
    (pre : List (CallOutcome T)) (v : T) (rest : List (CallOutcome T)) (interval : Int)
    (hpre : ∀ o ∈ pre, definedSuccess o = false) :
    endlessRetry (pre ++ CallOutcome.resolved (some v) :: rest) interval
        = some (v, pre.length + 1, interval * countThrown pre) ∧
      endlessRetryDefault (pre ++ CallOutcome.resolved (some v) :: rest)
        = endlessRetry (pre ++ CallOutcome.resolved (some v) :: rest) 1000 ∧
      ∀ ops : List (CallOutcome T), (∀ o ∈ ops, definedSuccess o = false) →
        endlessRetry ops interval = none := by
  refine ⟨?_, rfl, ?_⟩
  · induction pre with
    | nil => simp [endlessRetry, countThrown]
    | cons o pre ih =>
        have ho := hpre o (List.mem_cons_self _ _)
        have hpre' : ∀ o ∈ pre, definedSuccess o = false :=
          fun o ho' => hpre o (List.mem_cons_of_mem _ ho')
        rcases o with _ | mv
        · have hstep : endlessRetry
              ((CallOutcome.thrown :: pre) ++ CallOutcome.resolved (some v) :: rest) interval
              = (endlessRetry (pre ++ CallOutcome.resolved (some v) :: rest) interval).map
                  (fun r => (r.1, r.2.1 + 1, r.2.2 + interval)) := rfl
          rw [hstep, ih hpre']
          simp only [Option.map_some, countThrown, List.length_cons]
          refine congrArg some (Prod.ext rfl (Prod.ext rfl ?_))
          push_cast
          ring
        · rcases mv with _ | u
          · have hstep : endlessRetry
                ((CallOutcome.resolved none :: pre) ++ CallOutcome.resolved (some v) :: rest) interval
                = (endlessRetry (pre ++ CallOutcome.resolved (some v) :: rest) interval).map
                    (fun r => (r.1, r.2.1 + 1, r.2.2)) := rfl
            rw [hstep, ih hpre']
            rfl
          · simp [definedSuccess] at ho
  · intro ops hops
    induction ops with
    | nil => rfl
    | cons o ops ih =>
        have ho := hops o (List.mem_cons_self _ _)
        have hops' : ∀ o ∈ ops, definedSuccess o = false :=
          fun o ho' => hops o (List.mem_cons_of_mem _ ho')
        rcases o with _ | mv
        · simp [endlessRetry, ih hops']
        · rcases mv with _ | u
          · simp [endlessRetry, ih hops']
          · simp [definedSuccess] at ho

/-- Witness: a rejection, a nullish resolution, then a defined success:
three invocations, one sleep. -/
theorem endlessRetry_first_defined_success_witness :
    endlessRetry [CallOutcome.thrown, CallOutcome.resolved (none : Option Nat),
                  CallOutcome.resolved (some 7)] 1000 = some (7, 3, 1000) := by
  have h := (endlessRetry_first_defined_success
    [CallOutcome.thrown, CallOutcome.resolved (none : Option Nat)] 7 [] 1000
    (by decide)).1
  simpa using h

/-- Modelled from the spec: the primitive field kinds of the marshmallow
layout engine (`u8`/`u16`/`u64`/`u128`/`bool`/`publicKey`), whose
implementation is not among the sources; §4.1 fixes their canonical byte
widths. -/
inductive Prim where
  | u8
  | u16
  | u64
  | u128
  | boolByte
  | publicKey
  deriving Repr, DecidableEq

/-- Canonical width in bytes of each primitive kind (§4.1: 1, 2, 8 or 16
for numerics, 1 for booleans, 32 for account identifiers). -/
def Prim.width : Prim → Nat
  | Prim.u8 => 1
  | Prim.u16 => 2
  | Prim.u64 => 8
  | Prim.u128 => 16
  | Prim.boolByte => 1
  | Prim.publicKey => 32

/-- Modelled from the spec: one schema field (§3 FieldSpec) — a named
scalar, a named fixed-repeat sequence, or an unnamed field of a given
byte width (`blob(n)` paddings and unnamed `seq(...)` reserved words). -/
inductive FieldSpec where
  | field (name : String) (p : Prim)
  | fieldSeq (name : String) (p : Prim) (count : Nat)
  | pad (width : Nat)
  deriving Repr, DecidableEq

/-- Width in bytes contributed by one field: scalar width, width times
repeat count, or the padding width. -/
def fieldWidth : FieldSpec → Nat
  | FieldSpec.field _ p => p.width
  | FieldSpec.fieldSeq _ p n => p.width * n
  | FieldSpec.pad w => w

/-- Total byte length of a schema (§3: sum of field widths). -/
def totalWidth (s : List FieldSpec) : Nat := (s.map fieldWidth).sum

theorem totalWidth_cons (f : FieldSpec) (fs : List FieldSpec) :
    totalWidth (f :: fs) = fieldWidth f + totalWidth fs := by
  simp [totalWidth]

/-- Modelled from the spec: a decoded field value — a little-endian
unsigned integer, a boolean, a 32-byte account identifier (the pluggable
base-58 codec is modelled as the identity on the raw bytes, an injective
codec), or a fixed-length sequence. -/
inductive Value where
  | num (n : Nat)
  | boolV (b : Bool)
  | pk (bytes : List Nat)
  | seqV (vs : List Value)

/-- One entry of a decoded record, in schema order: a named value, or the
raw bytes of an unnamed field (the 8-byte discriminator prefix and the
reserved words), retained so that encode can preserve them verbatim as
§4.1 requires of the discriminator. -/
inductive Entry where
  | named (name : String) (v : Value)
  | padBytes (bs : List Nat)

/-- A decoded record. -/
abbrev LayoutRecord := List Entry

/-- Little-endian value of a byte list. -/
def leVal : List Nat → Nat
  | [] => 0
  | b :: rest => b + 256 * leVal rest

/-- Little-endian encoding of `n` into exactly `w` bytes. -/
def natToLE : Nat → Nat → List Nat
  | 0, _ => []
  | w + 1, n => n % 256 :: natToLE w (n / 256)

/-- Modelled from the spec: decode one primitive from exactly its width in
bytes — numerics as little-endian unsigned integers, booleans treating any
nonzero byte as true (§4.1's tolerated behaviour), account identifiers as
their 32 raw bytes. -/
def decodePrim (p : Prim) (bs : List Nat) : Value :=
  match p with
  | Prim.boolByte => Value.boolV (leVal bs != 0)
  | Prim.publicKey => Value.pk bs
  | _ => Value.num (leVal bs)

/-- Modelled from the spec: encode one primitive value back into its width
in bytes (booleans canonically as 0 or 1); a value of the wrong shape is
zero-filled, which never occurs on decoded records. -/
def encodePrim (p : Prim) (v : Value) : List Nat :=
  match p, v with
  | Prim.boolByte, Value.boolV b => [if b then 1 else 0]
  | Prim.publicKey, Value.pk bs => bs
  | _, Value.num n => natToLE p.width n
  | _, _ => List.replicate p.width 0

/-- Split `count` consecutive chunks of `w` bytes off a buffer. -/
def chunksOf (w : Nat) : Nat → List Nat → List (List Nat)
  | 0, _ => []
  | n + 1, bs => bs.take w :: chunksOf w n (bs.drop w)

/-- Modelled from the spec: decode one field from exactly its width in
bytes; a named sequence decodes each chunk, an unnamed field keeps its raw
bytes. -/
def decodeField : FieldSpec → List Nat → Entry
  | FieldSpec.field nm p, bs => Entry.named nm (decodePrim p bs)
  | FieldSpec.fieldSeq nm p n, bs =>
      Entry.named nm (Value.seqV ((chunksOf p.width n bs).map (decodePrim p)))
  | FieldSpec.pad _, bs => Entry.padBytes bs

/-- Modelled from the spec: decode a field list against a buffer, consuming
bytes strictly in schema order with zero gaps or overlaps (§3). -/
def decodeFields : List FieldSpec → List Nat → LayoutRecord
  | [], _ => []
  | f :: fs, bs => decodeField f (bs.take (fieldWidth f)) :: decodeFields fs (bs.drop (fieldWidth f))

/-- Modelled from the spec: `decode(schema, buffer)` — fails (the
`LengthMismatch` condition, `none` here) unless
`buffer.length = schema.totalWidth` (§4.1). -/
def decode (s : List FieldSpec) (buf : List Nat) : Option LayoutRecord :=
  if buf.length = totalWidth s then some (decodeFields s buf) else none

/-- Modelled from the spec: encode one field of a record. -/
def encodeField : FieldSpec → Entry → List Nat
  | FieldSpec.field _ p, Entry.named _ v => encodePrim p v
  | FieldSpec.fieldSeq _ p _, Entry.named _ (Value.seqV vs) => (vs.map (encodePrim p)).flatten
  | FieldSpec.pad _, Entry.padBytes bs => bs
  | f, _ => List.replicate (fieldWidth f) 0

/-- Modelled from the spec: encode a record against its field list, in
schema order. -/
def encodeFields : List FieldSpec → LayoutRecord → List Nat
  | f :: fs, e :: es => encodeField f e ++ encodeFields fs es
  | _, _ => []

/-- Modelled from the spec: `encode(schema, Record) -> buffer` (§4.1). -/
def encode (s : List FieldSpec) (r : LayoutRecord) : List Nat := encodeFields s r

/-- A boolean byte is canonical when it is 0 or 1 (§4.1: non-0/1 bytes are
implementation-defined). -/
def boolOkPrim (p : Prim) (bs : List Nat) : Bool :=
  match p with
  | Prim.boolByte => leVal bs ≤ 1
  | _ => true

/-- Canonicality of the boolean bytes within one field's bytes. -/
def boolOkField : FieldSpec → List Nat → Bool
  | FieldSpec.field _ p, bs => boolOkPrim p bs
  | FieldSpec.fieldSeq _ p n, bs => (chunksOf p.width n bs).all (boolOkPrim p)
  | FieldSpec.pad _, _ => true

/-- Canonicality of all boolean bytes of a buffer under a schema. -/
def boolCanonical : List FieldSpec → List Nat → Bool
  | [], _ => true
  | f :: fs, bs =>
      boolOkField f (bs.take (fieldWidth f)) && boolCanonical fs (bs.drop (fieldWidth f))

/-- `CpmmConfigInfoLayout`: the pool-configuration schema, translated field
by field from the layout source (`blob(8)` and the unnamed `seq(u64(), 16)`
— 16 reserved 64-bit words, 128 bytes — are unnamed fields). -/
def CpmmConfigInfoLayout : List FieldSpec :=
  [ FieldSpec.pad 8
  , FieldSpec.field "bump" Prim.u8
  , FieldSpec.field "disableCreatePool" Prim.boolByte
  , FieldSpec.field "index" Prim.u16
  , FieldSpec.field "tradeFeeRate" Prim.u64
  , FieldSpec.field "protocolFeeRate" Prim.u64
  , FieldSpec.field "fundFeeRate" Prim.u64
  , FieldSpec.field "createPoolFee" Prim.u64
  , FieldSpec.field "protocolOwner" Prim.publicKey
  , FieldSpec.field "fundOwner" Prim.publicKey
  , FieldSpec.pad 128 ]

/-- `CpmmPoolInfoLayout`: the pool-state schema, translated field by field
from the layout source (`blob(8)` discriminator and the unnamed
`seq(u64(), 23)` — 23 reserved 64-bit words, 184 bytes — are unnamed
fields). -/
def CpmmPoolInfoLayout : List FieldSpec :=
  [ FieldSpec.pad 8
  , FieldSpec.field "configId" Prim.publicKey
  , FieldSpec.field "poolCreator" Prim.publicKey
  , FieldSpec.field "vaultA" Prim.publicKey
  , FieldSpec.field "vaultB" Prim.publicKey
  , FieldSpec.field "mintLp" Prim.publicKey
  , FieldSpec.field "mintA" Prim.publicKey
  , FieldSpec.field "mintB" Prim.publicKey
  , FieldSpec.field "mintProgramA" Prim.publicKey
  , FieldSpec.field "mintProgramB" Prim.publicKey
  , FieldSpec.field "observationId" Prim.publicKey
  , FieldSpec.field "bump" Prim.u8
  , FieldSpec.field "status" Prim.u8
  , FieldSpec.field "lpDecimals" Prim.u8
  , FieldSpec.field "mintDecimalA" Prim.u8
  , FieldSpec.field "mintDecimalB" Prim.u8
  , FieldSpec.field "lpAmount" Prim.u64
  , FieldSpec.field "protocolFeesMintA" Prim.u64
  , FieldSpec.field "protocolFeesMintB" Prim.u64
  , FieldSpec.field "fundFeesMintA" Prim.u64
  , FieldSpec.field "fundFeesMintB" Prim.u64
  , FieldSpec.field "openTime" Prim.u64
  , FieldSpec.field "recentEpoch" Prim.u64
  , FieldSpec.field "tradeFeesTokenA" Prim.u128
  , FieldSpec.field "tradeFeesTokenB" Prim.u128
  , FieldSpec.field "cumulativeVolumeTokenA" Prim.u128
  , FieldSpec.field "cumulativeVolumeTokenB" Prim.u128
  , FieldSpec.pad 184 ]

theorem natToLE_leVal (bs : List Nat) (h : ∀ b ∈ bs, b < 256) :
    natToLE bs.length (leVal bs) = bs := by
  induction bs with
  | nil => rfl
  | cons b rest ih =>
      have hb : b < 256 := h b (List.mem_cons_self _ _)
      have hrest : ∀ x ∈ rest, x < 256 := fun x hx => h x (List.mem_cons_of_mem _ hx)
      simp only [List.length_cons, leVal, natToLE]
      have h1 : (b + 256 * leVal rest) % 256 = b := by
        rw [Nat.add_mul_mod_self_left, Nat.mod_eq_of_lt hb]
      have h2 : (b + 256 * leVal rest) / 256 = leVal rest := by
        rw [Nat.add_mul_div_left _ _ (by norm_num : 0 < 256), Nat.div_eq_of_lt hb,
          Nat.zero_add]
      rw [h1, h2, ih hrest]

theorem encodePrim_decodePrim (p : Prim) (bs : List Nat)
    (hlen : bs.length = p.width) (hb : ∀ b ∈ bs, b < 256)
    (hbool : boolOkPrim p bs = true) :
    encodePrim p (decodePrim p bs) = bs := by
  cases p with
  | boolByte =>
      rcases bs with _ | ⟨b, rest⟩
      · simp [Prim.width] at hlen
      · rcases rest with _ | ⟨c, rest⟩
        · have hle : b ≤ 1 := by
            have := of_decide_eq_true hbool
            simpa [leVal] using this
          interval_cases b <;> decide
        · simp [Prim.width] at hlen
  | publicKey => rfl
  | u8 =>
      simp only [decodePrim, encodePrim]
      rw [← hlen]
      exact natToLE_leVal bs hb
  | u16 =>
      simp only [decodePrim, encodePrim]
      rw [← hlen]
      exact natToLE_leVal bs hb
  | u64 =>
      simp only [decodePrim, encodePrim]
      rw [← hlen]
      exact natToLE_leVal bs hb
  | u128 =>
      simp only [decodePrim, encodePrim]
      rw [← hlen]
      exact natToLE_leVal bs hb

theorem length_mem_chunksOf (w n : Nat) (bs : List Nat) (h : bs.length = w * n) :
    ∀ c ∈ chunksOf w n bs, c.length = w := by
  induction n generalizing bs with
  | zero => intro c hc; simp [chunksOf] at hc
  | succ n ih =>
      intro c hc
      rw [Nat.mul_succ] at h
      simp only [chunksOf, List.mem_cons] at hc
      rcases hc with rfl | hc
      · rw [List.length_take]
        omega
      · exact ih (bs.drop w) (by rw [List.length_drop]; omega) c hc

theorem subset_mem_chunksOf (w n : Nat) (bs : List Nat) :
    ∀ c ∈ chunksOf w n bs, ∀ x ∈ c, x ∈ bs := by
  induction n generalizing bs with
  | zero => intro c hc; simp [chunksOf] at hc
  | succ n ih =>
      intro c hc x hx
      simp only [chunksOf, List.mem_cons] at hc
      rcases hc with rfl | hc
      · exact List.take_subset _ _ hx
      · exact List.drop_subset _ _ (ih (bs.drop w) c hc x hx)

theorem flatten_chunksOf (w n : Nat) (bs : List Nat) (h : bs.length = w * n) :
    (chunksOf w n bs).flatten = bs := by
  induction n generalizing bs with
  | zero =>
      rw [Nat.mul_zero] at h
      simp [chunksOf, List.length_eq_zero.mp h]
  | succ n ih =>
      simp only [chunksOf, List.flatten_cons]
      rw [ih (bs.drop w) (by rw [List.length_drop, h, Nat.mul_succ]; omega)]
      exact List.take_append_drop w bs

theorem map_eq_self_of_mem {α : Type} (l : List α) (g : α → α)
    (h : ∀ c ∈ l, g c = c) : l.map g = l := by
  induction l with
  | nil => rfl
  | cons c cs ih =>
      simp only [List.map_cons, h c (List.mem_cons_self _ _),
        ih (fun c hc => h c (List.mem_cons_of_mem _ hc))]

theorem encodeField_decodeField (f : FieldSpec) (bs : List Nat)
    (hlen : bs.length = fieldWidth f) (hb : ∀ b ∈ bs, b < 256)
    (hbool : boolOkField f bs = true) :
    encodeField f (decodeField f bs) = bs := by
  rcases f with ⟨nm, p⟩ | ⟨nm, p, n⟩ | w
  · exact encodePrim_decodePrim p bs hlen hb hbool
  · simp only [decodeField, encodeField, List.map_map]
    have hall : ∀ c ∈ chunksOf p.width n bs, boolOkPrim p c = true := by
      intro c hc
      exact List.all_eq_true.mp hbool c hc
    have hmap : (chunksOf p.width n bs).map (encodePrim p ∘ decodePrim p)
        = chunksOf p.width n bs := by
      apply map_eq_self_of_mem
      intro c hc
      exact encodePrim_decodePrim p c
        (length_mem_chunksOf p.width n bs hlen c hc)
        (fun x hx => hb x (subset_mem_chunksOf p.width n bs c hc x hx))
        (hall c hc)
    rw [hmap]
    exact flatten_chunksOf p.width n bs hlen
  · rfl

theorem encodeFields_decodeFields (s : List FieldSpec) (buf : List Nat)
    (hlen : buf.length = totalWidth s) (hb : ∀ b ∈ buf, b < 256)
    (hbool : boolCanonical s buf = true) :
    encodeFields s (decodeFields s buf) = buf := by
  induction s generalizing buf with
  | nil =>
      simp only [totalWidth, List.map_nil, List.sum_nil] at hlen
      simp [decodeFields, encodeFields, List.length_eq_zero.mp hlen]
  | cons f fs ih =>
      rw [totalWidth_cons] at hlen
      simp only [boolCanonical, Bool.and_eq_true] at hbool
      simp only [decodeFields, encodeFields]
      rw [encodeField_decodeField f _ (by rw [List.length_take]; omega)
            (fun b hb' => hb b (List.take_subset _ _ hb')) hbool.1]
      rw [ih _ (by rw [List.length_drop]; omega)
            (fun b hb' => hb b (List.drop_subset _ _ hb')) hbool.2]
      exact List.take_append_drop _ buf

/-- C9 (amended): for every schema and every buffer of bytes (values below
256) whose length equals the schema's total width and whose 1-byte boolean
fields hold a canonical 0 or 1, encoding the decoded record reproduces the
buffer byte-for-byte, including the uninterpreted 8-byte discriminator
prefix and the padding fields; the pool-configuration and pool-state
schemas have total widths 236 and 637. -/
theorem decode_encode_roundTrip (s : List FieldSpec) (buf : List Nat)
    (hlen : buf.length = totalWidth s) (hb : ∀ b ∈ buf, b < 256)
    (hbool : boolCanonical s buf = true) :
    (decode s buf).map (encode s) = some buf ∧
      totalWidth CpmmConfigInfoLayout = 236 ∧
      totalWidth CpmmPoolInfoLayout = 637 := by
  refine ⟨?_, by decide, by decide⟩
  have h := encodeFields_decodeFields s buf hlen hb hbool
  simp [decode, hlen, encode, h]

/-- A pool-configuration buffer whose `disableCreatePool` boolean byte
(offset 9) holds the non-canonical value 2. -/
def configNoncanonicalBuf : List Nat :=
  List.replicate 9 0 ++ 2 :: List.replicate 226 0

set_option maxRecDepth 8000

/-- C9 counterexample: the buffer with a 2 in the boolean byte has the
correct total width, yet decode-then-encode returns it with a 1 in that
byte — the round-trip law does not hold for every buffer of the correct
width (tolerant boolean decoding collapses nonzero bytes to true). -/
theorem roundTrip_bool_noncanonical :
    configNoncanonicalBuf.length = totalWidth CpmmConfigInfoLayout ∧
      (decode CpmmConfigInfoLayout configNoncanonicalBuf).map (encode CpmmConfigInfoLayout)
        = some (List.replicate 9 0 ++ 1 :: List.replicate 226 0) ∧
      (List.replicate 9 0 ++ 1 :: List.replicate 226 0 : List Nat) ≠ configNoncanonicalBuf := by
  refine ⟨by decide, by decide, by decide⟩

/-- A pool-configuration buffer with a nonzero discriminator prefix, a
canonical boolean byte, and nonzero numeric content. -/
def configSampleBuf : List Nat :=
  1 :: 2 :: 3 :: 4 :: 5 :: 6 :: 7 :: 8 :: 5 :: 1 :: List.replicate 226 0

/-- Witness: the round-trip law applied to the pool-configuration schema on
a concrete buffer whose discriminator bytes are nonzero. -/
theorem decode_encode_roundTrip_witness :
    (decode CpmmConfigInfoLayout configSampleBuf).map (encode CpmmConfigInfoLayout)
      = some configSampleBuf :=
  (decode_encode_roundTrip CpmmConfigInfoLayout configSampleBuf
    (by decide) (by decide) (by decide)).1
